import Mathlib

/-!
Shallow embedding of the ChatClient framing and transport code
(`validate.c`, `network.c`, `chatclient.c`).

Modelling conventions:
* A byte buffer is a `List Nat`; the value `0` is the C NUL terminator.
  C string routines (`strlen`, `strcat`, `strcpy`, `sprintf "%s"`) see only
  the content up to the first NUL, captured by `cstr`.
* The underlying socket primitives are modelled by a schedule
  `sched : Nat → Int` giving the behaviour of the i-th `recv`/`send` call:
  a negative value is a failure return of the primitive, a nonnegative value
  caps how many bytes the call transfers.  A `recv` call returns
  `min (requested, cap, bytes still in the stream)` bytes, hence `0` exactly
  when the peer has closed (for caps ≥ 1, matching a blocking socket).
* Loops are run on explicit fuel; an outer `none` means the fuel was
  exhausted, which is how non-termination of the C loop is observed.
-/

set_option maxRecDepth 8000

namespace ChatClient

/-- `MAX_BYTES` from `validate.h`: size of the fixed receive buffers. -/
def MAX_BYTES : Nat := 516

/-- `MAX_MSG` from `validate.h`: the bound `_validateMsg` enforces. -/
def MAX_MSG : Nat := 500

/-- `PREFIX_OFFSET` from `validate.h`: the width of the length header. -/
def PREFIX_OFFSET : Nat := 3

/-- A byte that is not the C NUL terminator. -/
def nonNul (b : Nat) : Bool := b != 0

/-- The C-string content of a byte buffer: the bytes before the first NUL.
    This is what `strlen` measures and what `strcat`/`strcpy` copy. -/
def cstr (p : List Nat) : List Nat := p.takeWhile nonNul

/-- Decimal digit bytes of `n`, most significant first (fuel-driven helper;
    `decDigitsAux n n` is exact for every `n`, since `n / 10` shrinks). -/
def decDigitsAux : Nat → Nat → List Nat
  | 0, _ => []
  | fuel + 1, n => if n = 0 then [] else decDigitsAux fuel (n / 10) ++ [48 + n % 10]

/-- ASCII decimal digit bytes of a natural number (at least one digit). -/
def decDigits (n : Nat) : List Nat := if n = 0 then [48] else decDigitsAux n n

/-- Model of `sprintf(buffer, "%03d", n)` for nonnegative `n`: the decimal
    digits of `n`, left-padded with ASCII `'0'` to a minimum width of 3. -/
def sprintf03 (n : Nat) : List Nat :=
  List.replicate (3 - (decDigits n).length) 48 ++ decDigits n

/-- ASCII whitespace as classified by `isspace` (what `strtol` skips). -/
def isSpaceByte (b : Nat) : Bool := b == 32 || (decide (9 ≤ b) && decide (b ≤ 13))

/-- ASCII decimal digit bytes. -/
def isDigitByte (b : Nat) : Bool := decide (48 ≤ b) && decide (b ≤ 57)

/-- Accumulate the longest leading run of decimal digits into a value. -/
def strtolAcc : List Nat → Int → Int
  | [], acc => acc
  | b :: rest, acc =>
      if isDigitByte b then strtolAcc rest (acc * 10 + ((b : Int) - 48)) else acc

/-- Model of `strtol(s, NULL, 10)`: skip whitespace, read an optional sign,
    then the longest run of digits; the value is `0` when no digit follows. -/
def strtol (s : List Nat) : Int :=
  match s.dropWhile isSpaceByte with
  | 43 :: rest => strtolAcc rest 0
  | 45 :: rest => - strtolAcc rest 0
  | t => strtolAcc t 0

/-- Model of `_prependByteCountMsg` (validate.c, lines 212-221): it writes
    `"%03d"` of `strlen(msg) + 1` into a scratch buffer — the `+ 1` counts the
    NUL terminator, because `main` later sends `strlen(buffer) + 1` bytes —
    concatenates the message content, and copies the result back.  The
    resulting C-string content is the header followed by the old content
    (the `msgLen` parameter only drives a `memset` that the final `strcpy`
    makes invisible at the C-string level). -/
def _prependByteCountMsg (p : List Nat) : List Nat :=
  sprintf03 ((cstr p).length + 1) ++ cstr p

/-- Model of `_validateMsg` (validate.c, lines 192-200): accepts exactly the
    non-null messages whose C-string length is at most `MAX_MSG`. -/
def _validateMsg (p : List Nat) : Bool := decide ((cstr p).length ≤ MAX_MSG)

/-- The exact bytes `main` (chatclient.c, line 42) puts on the wire for a
    message whose buffer content is `_prependByteCountMsg p`: it calls
    `chatSend(sockfd, buffer, strlen(buffer) + 1)`, so the trailing NUL is
    transmitted as well. -/
def sentFrame (p : List Nat) : List Nat := _prependByteCountMsg p ++ [0]

/-- Result of `chatSend`: either the process exited because `send` returned
    `-1`, or the loop finished and `bytes` were handed to the kernel, in
    order. -/
inductive SendOutcome where
  | exited
  | sent (bytes : List Nat)
deriving DecidableEq

/-- Model of the `while (totalSent < msgLen)` loop of `chatSend` (network.c,
    lines 104-123).  Arguments after the fuel: the message buffer, `msgLen`,
    `totalSent`, the index of the next `send` call, and the bytes transmitted
    so far.  `sched i < 0` models `send` returning `-1` (the code calls
    `exit`); otherwise the call transfers `min (msgLen - totalSent, sched i)`
    bytes starting at offset `totalSent`. -/
def chatSendLoop (sched : Nat → Int) :
    Nat → List Nat → Nat → Nat → Nat → List Nat → Option SendOutcome
  | 0, _, _, _, _, _ => none
  | fuel + 1, message, msgLen, totalSent, i, out =>
    if totalSent < msgLen then
      if sched i < 0 then some .exited
      else
        chatSendLoop sched fuel message msgLen
          (totalSent + min (msgLen - totalSent) (sched i).toNat) (i + 1)
          (out ++ (message.drop totalSent).take (min (msgLen - totalSent) (sched i).toNat))
    else some (.sent out)

/-- Model of `chatSend` (network.c, lines 104-123). -/
def chatSend (sched : Nat → Int) (fuel : Nat) (message : List Nat) (msgLen : Nat) :
    Option SendOutcome :=
  chatSendLoop sched fuel message msgLen 0 0 []

/-- Model of the loop of `_chatReceiveHelper` (network.c, lines 140-165).
    State after the fuel: undelivered stream bytes, next call index, the
    accumulated C-string content of `message`, the current value of the local
    `status` (`none` while still uninitialised), `bytesReceived`, `msgLen`.
    Each round zeroes the scratch buffer, calls `recv`, and on a nonzero
    status does `strcat(message, buffer)` — appending the chunk's bytes up to
    the chunk's first NUL — while `bytesReceived` advances by the full
    (possibly negative, never checked) `recv` return value.  A zero status
    returns immediately.  The function returns the returned status, the final
    message content, the undelivered bytes, and the next call index. -/
def chatReceiveHelperLoop (sched : Nat → Int) :
    Nat → List Nat → Nat → List Nat → Option Int → Int → Int →
    Option (Option Int × List Nat × List Nat × Nat)
  | 0, _, _, _, _, _, _ => none
  | fuel + 1, data, i, msg, st, bytesReceived, msgLen =>
    if bytesReceived < msgLen then
      if sched i < 0 then
        chatReceiveHelperLoop sched fuel data (i + 1) msg (some (sched i))
          (bytesReceived + sched i) msgLen
      else
        if min (msgLen - bytesReceived).toNat (min (sched i).toNat data.length) = 0 then
          some (some 0, msg, data, i + 1)
        else
          chatReceiveHelperLoop sched fuel
            (data.drop (min (msgLen - bytesReceived).toNat (min (sched i).toNat data.length)))
            (i + 1)
            (msg ++ cstr (data.take
              (min (msgLen - bytesReceived).toNat (min (sched i).toNat data.length))))
            (some ((min (msgLen - bytesReceived).toNat
              (min (sched i).toNat data.length) : Nat) : Int))
            (bytesReceived + (min (msgLen - bytesReceived).toNat
              (min (sched i).toNat data.length) : Nat))
            msgLen
    else some (st, msg, data, i)

/-- Model of `_chatReceiveHelper` (network.c, lines 140-165): run the loop on
    an empty accumulator with `bytesReceived = 0` and `status` uninitialised. -/
def _chatReceiveHelper (sched : Nat → Int) (fuel : Nat) (data : List Nat)
    (i : Nat) (msgLen : Int) : Option (Option Int × List Nat × List Nat × Nat) :=
  chatReceiveHelperLoop sched fuel data i [] none 0 msgLen

/-- Observable outcome of `chatReceive`. -/
structure ReceiveResult where
  /-- The value `chatReceive` returns; `none` models returning the
      helper's uninitialised local `status`. -/
  status : Option Int
  /-- C-string content `strcpy`-ed into the caller's buffer;
      `none` when the early return left the buffer untouched. -/
  message : Option (List Nat)
  /-- Stream bytes not consumed. -/
  rest : List Nat
  /-- Number of `recv` calls made. -/
  calls : Nat
deriving DecidableEq

/-- Model of `chatReceive` (network.c, lines 180-202): read a
    `PREFIX_OFFSET`-byte header, return immediately on status 0, otherwise
    parse the header with `strtol` and read that many body bytes, copying the
    body into the caller's buffer and returning the body read's status. -/
def chatReceive (sched : Nat → Int) (fuel : Nat) (data : List Nat) :
    Option ReceiveResult :=
  match _chatReceiveHelper sched fuel data 0 (PREFIX_OFFSET : Int) with
  | none => none
  | some (st, header, data', i') =>
    if st = some 0 then some ⟨some 0, none, data', i'⟩
    else
      match chatReceiveHelperLoop sched fuel data' i' [] none 0 (strtol header) with
      | none => none
      | some (st2, body, data'', i'') => some ⟨st2, some body, data'', i''⟩

/-! ### Auxiliary lemmas -/

theorem cstr_of_nonNul (p : List Nat) (h : ∀ b ∈ p, nonNul b = true) : cstr p = p := by
  rw [cstr, List.takeWhile_eq_self_iff]
  exact h

theorem cstr_append_nul (q t : List Nat) (h : ∀ b ∈ q, nonNul b = true) :
    cstr (q ++ 0 :: t) = q := by
  induction q with
  | nil => rfl
  | cons b q ih =>
    have hb : nonNul b = true := h b (List.mem_cons_self b q)
    have ht := ih (fun x hx => h x (List.mem_cons_of_mem b hx))
    simp only [cstr, List.cons_append, List.takeWhile_cons, hb, if_true]
    simpa [cstr] using ht

/-- Every 3-digit header value round-trips: for `m < 1000` the `"%03d"`
    rendering has exactly 3 bytes, all of them non-NUL digit bytes, and
    `strtol` recovers `m` from it. -/
theorem sprintf03_spec : ∀ m : Nat, m < 1000 →
    (sprintf03 m).length = 3 ∧ (∀ b ∈ sprintf03 m, nonNul b = true) ∧
    strtol (sprintf03 m) = (m : Int) := by decide

/-- Workhorse for the complete-read case of the receive loop: when every
    `recv` call yields at least one byte, the stream still holds at least the
    `r` bytes the loop is missing, and those bytes are NUL-free, the loop
    appends exactly those `r` bytes to the accumulator, in arrival order, and
    returns a positive final status. -/
theorem helperLoop_complete (sched : Nat → Int) (hc : ∀ j, 1 ≤ sched j) :
    ∀ (fuel r : Nat) (data msg : List Nat) (i : Nat) (st : Option Int) (br : Int),
      r ≤ data.length →
      (∀ b ∈ data.take r, nonNul b = true) →
      r < fuel →
      ∃ (st' : Option Int) (i' : Nat),
        chatReceiveHelperLoop sched fuel data i msg st br (br + r)
          = some (st', msg ++ data.take r, data.drop r, i')
        ∧ (r = 0 → st' = st ∧ i' = i)
        ∧ (0 < r → ∃ k : Nat, 1 ≤ k ∧ st' = some (k : Int)) := by
  intro fuel
  induction fuel with
  | zero => intro r data msg i st br _ _ hf; exact absurd hf (Nat.not_lt_zero r)
  | succ fuel ih =>
    intro r data msg i st br hlen hnn hf
    rcases Nat.eq_zero_or_pos r with hr | hr
    · subst hr
      refine ⟨st, i, ?_, fun _ => ⟨rfl, rfl⟩, fun h => absurd h (lt_irrefl 0)⟩
      simp [chatReceiveHelperLoop]
    · have hbr : br < br + (r : Int) := by omega
      have hsi := hc i
      have hns : ¬ sched i < 0 := by omega
      have htn : (br + (r : Int) - br).toNat = r := by omega
      simp only [chatReceiveHelperLoop]
      rw [if_pos hbr, if_neg hns, htn]
      set k := min r (min (sched i).toNat data.length) with hkdef
      have hk1 : 1 ≤ k := by
        have h1 : 1 ≤ (sched i).toNat := by omega
        omega
      have hki : k ≤ r := min_le_left _ _
      rw [if_neg (by omega : ¬ k = 0)]
      have hsub : ∀ b, b ∈ data.take k → b ∈ data.take r := by
        intro b hb
        have hkk : data.take k = (data.take r).take k := by
          rw [List.take_take, min_eq_left hki]
        rw [hkk] at hb
        exact List.mem_of_mem_take hb
      have hckeq : cstr (data.take k) = data.take k :=
        cstr_of_nonNul _ (fun b hb => hnn b (hsub b hb))
      have htadd : data.take r = data.take k ++ (data.drop k).take (r - k) := by
        have h1 := List.take_add data k (r - k)
        rwa [Nat.add_sub_cancel' hki] at h1
      obtain ⟨st', i', heq, hz, hp⟩ :=
        ih (r - k) (data.drop k) (msg ++ data.take k) (i + 1) (some (k : Int)) (br + k)
          (by simp [List.length_drop]; omega)
          (by intro b hb; exact hnn b (htadd ▸ List.mem_append_right _ hb))
          (by omega)
      have hml : (br + (k : Int)) + ((r - k : Nat) : Int) = br + r := by omega
      rw [hml] at heq
      have hdrop : (data.drop k).drop (r - k) = data.drop r := by
        rw [List.drop_drop]; congr 1; omega
      refine ⟨st', i', ?_, fun h => absurd h (by omega), ?_⟩
      · rw [hckeq, htadd, ← List.append_assoc, ← hdrop]
        exact heq
      · intro _
        rcases Nat.eq_zero_or_pos (r - k) with h0 | h0
        · exact ⟨k, hk1, (hz h0).1⟩
        · exact hp h0

/-- `_chatReceiveHelper` variant of `helperLoop_complete`: reading `r` bytes
    from a NUL-free stream that holds at least `r` bytes returns exactly the
    first `r` bytes of the stream, in order. -/
theorem chatReceiveHelper_complete (sched : Nat → Int) (hc : ∀ j, 1 ≤ sched j)
    (fuel r : Nat) (data : List Nat) (i : Nat)
    (hlen : r ≤ data.length) (hnn : ∀ b ∈ data.take r, nonNul b = true)
    (hf : r < fuel) :
    ∃ (st' : Option Int) (i' : Nat),
      _chatReceiveHelper sched fuel data i (r : Int)
        = some (st', data.take r, data.drop r, i')
      ∧ (0 < r → ∃ k : Nat, 1 ≤ k ∧ st' = some (k : Int)) := by
  obtain ⟨st', i', heq, _, hp⟩ :=
    helperLoop_complete sched hc fuel r data [] i none 0 hlen hnn hf
  rw [zero_add, List.nil_append] at heq
  exact ⟨st', i', heq, hp⟩

/-- Workhorse for the body read of a well-formed frame: the `r = q.length + 1`
    bytes to read are the NUL-free payload `q` followed by the transmitted NUL
    terminator.  The loop's `strcat` drops the NUL, so the accumulated content
    is exactly `q`, and the final status is positive. -/
theorem helperLoop_trailingNul (sched : Nat → Int) (hc : ∀ j, 1 ≤ sched j) :
    ∀ (fuel : Nat) (q data msg : List Nat) (i : Nat) (st : Option Int) (br : Int),
      data.take (q.length + 1) = q ++ [0] →
      (∀ b ∈ q, nonNul b = true) →
      q.length + 1 ≤ data.length →
      q.length + 1 < fuel →
      ∃ (k i' : Nat), 1 ≤ k ∧
        chatReceiveHelperLoop sched fuel data i msg st br (br + ((q.length + 1 : Nat) : Int))
          = some (some (k : Int), msg ++ q, data.drop (q.length + 1), i') := by
  intro fuel
  induction fuel with
  | zero => intro q data msg i st br _ _ _ hf; exact absurd hf (Nat.not_lt_zero _)
  | succ fuel ih =>
    intro q data msg i st br htake hnn hlen hf
    have hbr : br < br + ((q.length + 1 : Nat) : Int) := by omega
    have hsi := hc i
    have hns : ¬ sched i < 0 := by omega
    have htn : (br + ((q.length + 1 : Nat) : Int) - br).toNat = q.length + 1 := by omega
    simp only [chatReceiveHelperLoop]
    rw [if_pos hbr, if_neg hns, htn]
    set k := min (q.length + 1) (min (sched i).toNat data.length) with hkdef
    have hk1 : 1 ≤ k := by
      have h1 : 1 ≤ (sched i).toNat := by omega
      omega
    have hki : k ≤ q.length + 1 := min_le_left _ _
    rw [if_neg (by omega : ¬ k = 0)]
    rcases Nat.lt_or_ge k (q.length + 1) with hlt | hge
    · -- the chunk stays inside the NUL-free payload
      have hkq : k ≤ q.length := by omega
      have hchunk : data.take k = q.take k := by
        have h1 : data.take k = (data.take (q.length + 1)).take k := by
          rw [List.take_take, min_eq_left hki]
        rw [h1, htake, List.take_append_of_le_length hkq]
      have hckeq : cstr (data.take k) = q.take k := by
        rw [hchunk]
        exact cstr_of_nonNul _ (fun b hb => hnn b (List.mem_of_mem_take hb))
      have hXdef : (data.drop k).take (q.length + 1 - k) = q.drop k ++ [0] := by
        have happ := List.take_add data k (q.length + 1 - k)
        rw [Nat.add_sub_cancel' hki, htake, hchunk] at happ
        have h2 : q.take k ++ (q.drop k ++ [0])
            = q.take k ++ (data.drop k).take (q.length + 1 - k) := by
          rw [← List.append_assoc, List.take_append_drop]
          exact happ
        exact (List.append_cancel_left h2).symm
      have hdt : (data.drop k).take ((q.drop k).length + 1) = q.drop k ++ [0] := by
        have hl : (q.drop k).length + 1 = q.length + 1 - k := by
          simp [List.length_drop]; omega
        rw [hl]; exact hXdef
      obtain ⟨k', i', hk'1, heq⟩ :=
        ih (q.drop k) (data.drop k) (msg ++ q.take k) (i + 1) (some (k : Int)) (br + k)
          hdt
          (fun b hb => hnn b (List.mem_of_mem_drop hb))
          (by simp only [List.length_drop]; omega)
          (by simp only [List.length_drop]; omega)
      have hml : (br + (k : Int)) + (((q.drop k).length + 1 : Nat) : Int)
          = br + ((q.length + 1 : Nat) : Int) := by
        simp only [List.length_drop]; omega
      rw [hml] at heq
      have hmsg : (msg ++ q.take k) ++ q.drop k = msg ++ q := by
        rw [List.append_assoc, List.take_append_drop]
      have hdrop : (data.drop k).drop ((q.drop k).length + 1) = data.drop (q.length + 1) := by
        rw [List.drop_drop]; congr 1; simp only [List.length_drop]; omega
      rw [hmsg, hdrop] at heq
      exact ⟨k', i', hk'1, by rw [hckeq]; exact heq⟩
    · -- the chunk swallows the payload together with its NUL terminator
      have hkeq : k = q.length + 1 := le_antisymm hki hge
      have hchunk : data.take k = q ++ [0] := by rw [hkeq, htake]
      have hckeq : cstr (data.take k) = q := by
        rw [hchunk]; exact cstr_append_nul q [] hnn
      obtain ⟨fuel', rfl⟩ : ∃ f, fuel = f + 1 := ⟨fuel - 1, by omega⟩
      refine ⟨k, i + 1, hk1, ?_⟩
      rw [hckeq]
      simp only [chatReceiveHelperLoop]
      rw [if_neg (by omega : ¬ br + (k : Int) < br + ((q.length + 1 : Nat) : Int))]
      rw [hkeq]

/-- Workhorse for a stream that closes before `msgLen` bytes were delivered:
    the loop drains the remaining (NUL-free) data until `recv` returns 0,
    accumulating all the delivered bytes and returning status 0 — the same
    value a clean closure produces. -/
theorem helperLoop_closure (sched : Nat → Int) (hc : ∀ j, 1 ≤ sched j) :
    ∀ (fuel : Nat) (data msg : List Nat) (i : Nat) (st : Option Int) (br msgLen : Int),
      (∀ b ∈ data, nonNul b = true) →
      br + data.length < msgLen →
      data.length < fuel →
      ∃ i', chatReceiveHelperLoop sched fuel data i msg st br msgLen
              = some (some 0, msg ++ data, [], i') := by
  intro fuel
  induction fuel with
  | zero => intro data msg i st br msgLen _ _ hf; exact absurd hf (Nat.not_lt_zero _)
  | succ fuel ih =>
    intro data msg i st br msgLen hnn hlt hf
    have hbr : br < msgLen := by
      have : (0 : Int) ≤ data.length := by positivity
      omega
    have hsi := hc i
    have hns : ¬ sched i < 0 := by omega
    simp only [chatReceiveHelperLoop]
    rw [if_pos hbr, if_neg hns]
    rcases Nat.eq_zero_or_pos data.length with h0 | h0
    · have hdnil : data = [] := List.length_eq_zero.mp h0
      subst hdnil
      rw [if_pos (by simp)]
      exact ⟨i + 1, by simp⟩
    · set k := min (msgLen - br).toNat (min (sched i).toNat data.length) with hkdef
      have hreq : data.length < (msgLen - br).toNat := by omega
      have hk1 : 1 ≤ k := by
        have h1 : 1 ≤ (sched i).toNat := by omega
        omega
      have hkd : k ≤ data.length := by omega
      rw [if_neg (by omega : ¬ k = 0)]
      have hckeq : cstr (data.take k) = data.take k :=
        cstr_of_nonNul _ (fun b hb => hnn b (List.mem_of_mem_take hb))
      obtain ⟨i', heq⟩ :=
        ih (data.drop k) (msg ++ data.take k) (i + 1) (some (k : Int)) (br + k) msgLen
          (fun b hb => hnn b (List.mem_of_mem_drop hb))
          (by simp only [List.length_drop]; omega)
          (by simp only [List.length_drop]; omega)
      refine ⟨i', ?_⟩
      rw [hckeq, heq, List.append_assoc, List.take_append_drop]

/-- Workhorse for C9: when every `recv` call fails (returns a negative
    value), the loop never terminates — `bytesReceived` only decreases, so
    the guard stays true and every amount of fuel is exhausted. -/
theorem helperLoop_negative (sched : Nat → Int) (hneg : ∀ j, sched j < 0) :
    ∀ (fuel : Nat) (data msg : List Nat) (i : Nat) (st : Option Int) (br msgLen : Int),
      br < msgLen →
      chatReceiveHelperLoop sched fuel data i msg st br msgLen = none := by
  intro fuel
  induction fuel with
  | zero => intro data msg i st br msgLen _; rfl
  | succ fuel ih =>
    intro data msg i st br msgLen hbr
    simp only [chatReceiveHelperLoop]
    rw [if_pos hbr, if_pos (hneg i)]
    exact ih data msg (i + 1) (some (sched i)) (br + sched i) msgLen
      (by have := hneg i; omega)

/-- Workhorse for `chatSend`: when every `send` call accepts at least one
    byte, the loop transmits the `r` still-unsent bytes in order. -/
theorem sendLoop_complete (sched : Nat → Int) (hc : ∀ j, 1 ≤ sched j) :
    ∀ (fuel r : Nat) (message out : List Nat) (totalSent i : Nat),
      totalSent + r ≤ message.length →
      r < fuel →
      chatSendLoop sched fuel message (totalSent + r) totalSent i out
        = some (.sent (out ++ (message.drop totalSent).take r)) := by
  intro fuel
  induction fuel with
  | zero => intro r _ _ _ _ _ hf; exact absurd hf (Nat.not_lt_zero _)
  | succ fuel ih =>
    intro r message out totalSent i hlen hf
    rcases Nat.eq_zero_or_pos r with hr | hr
    · subst hr
      simp [chatSendLoop]
    · have hts : totalSent < totalSent + r := by omega
      have hsi := hc i
      have hns : ¬ sched i < 0 := by omega
      simp only [chatSendLoop]
      rw [if_pos hts, if_neg hns]
      have hsub : totalSent + r - totalSent = r := by omega
      rw [hsub]
      set k := min r (sched i).toNat with hkdef
      have hk1 : 1 ≤ k := by
        have h1 : 1 ≤ (sched i).toNat := by omega
        omega
      have hki : k ≤ r := min_le_left _ _
      have hthis := ih (r - k) message (out ++ (message.drop totalSent).take k)
        (totalSent + k) (i + 1) (by omega) (by omega)
      rw [show (totalSent + k) + (r - k) = totalSent + r from by omega] at hthis
      rw [hthis]
      have htadd : (message.drop totalSent).take r
          = (message.drop totalSent).take k ++ (message.drop (totalSent + k)).take (r - k) := by
        have h1 := List.take_add (message.drop totalSent) k (r - k)
        rw [Nat.add_sub_cancel' hki] at h1
        rw [h1]
        congr 2
        rw [List.drop_drop]
      rw [htadd, ← List.append_assoc]

/-- Shared fact for C4 and C5: on an already-closed stream (no bytes left)
    the very first `recv` returns 0, `chatReceive` returns 0 after exactly one
    `recv` call, and the caller's buffer is left untouched. -/
theorem chatReceive_nil (sched : Nat → Int) (fuel : Nat) (h0 : 0 ≤ sched 0)
    (hf : 1 ≤ fuel) : chatReceive sched fuel [] = some ⟨some 0, none, [], 1⟩ := by
  obtain ⟨fuel', rfl⟩ : ∃ f, fuel = f + 1 := ⟨fuel - 1, by omega⟩
  have hns : ¬ sched 0 < 0 := by omega
  have hhelper : _chatReceiveHelper sched (fuel' + 1) [] 0 (PREFIX_OFFSET : Int)
      = some (some 0, [], [], 1) := by
    unfold _chatReceiveHelper
    simp only [chatReceiveHelperLoop]
    rw [if_pos (by norm_num [PREFIX_OFFSET] : (0 : Int) < (PREFIX_OFFSET : Int)),
        if_neg hns, if_pos (by simp)]
  unfold chatReceive
  rw [hhelper]
  rfl

/-- Shared decoding step: when the stream starts with a 3-byte NUL-free
    header and every `recv` yields at least one byte, `chatReceive` reads
    exactly the header (with a positive status, so no early return), parses
    it with `strtol`, and hands the remainder of the stream to the body
    read.  -/
theorem chatReceive_step (sched : Nat → Int) (hc : ∀ j, 1 ≤ sched j)
    (hdr rest : List Nat) (fuel : Nat) (hlen : hdr.length = 3)
    (hnn : ∀ b ∈ hdr, nonNul b = true) (hf : 3 < fuel) :
    ∃ i1, chatReceive sched fuel (hdr ++ rest)
      = match chatReceiveHelperLoop sched fuel rest i1 [] none 0 (strtol hdr) with
        | none => none
        | some (st2, body, data'', i'') => some ⟨st2, some body, data'', i''⟩ := by
  have htake : (hdr ++ rest).take 3 = hdr := by
    rw [← hlen]; exact List.take_left _ _
  have hdrop : (hdr ++ rest).drop 3 = rest := by
    rw [← hlen]; exact List.drop_left _ _
  obtain ⟨st', i1, heq, hpos⟩ :=
    chatReceiveHelper_complete sched hc fuel 3 (hdr ++ rest) 0
      (by rw [List.length_append]; omega)
      (by rw [htake]; exact hnn)
      hf
  obtain ⟨k0, hk0, hst⟩ := hpos (by omega)
  rw [htake, hdrop, hst] at heq
  refine ⟨i1, ?_⟩
  unfold chatReceive
  rw [show ((PREFIX_OFFSET : Nat) : Int) = ((3 : Nat) : Int) from rfl, heq]
  dsimp only
  rw [if_neg (by simp only [Option.some.injEq]; omega)]

/-! ### Claim theorems -/

/-- C5: if the stream yields zero bytes on the very first read attempt for a
    header, `chatReceive` returns the peer-closed status 0 (not an error),
    makes exactly one `recv` call — so it never attempts to read a message
    body — and leaves the caller's message buffer untouched. -/
theorem C5_cleanClosure (sched : Nat → Int) (fuel : Nat)
    (h0 : 0 ≤ sched 0) (hf : 1 ≤ fuel) :
    chatReceive sched fuel [] = some ⟨some 0, none, [], 1⟩ :=
  chatReceive_nil sched fuel h0 hf

/-- Witness for C5 at a concrete schedule and fuel. -/
theorem C5_cleanClosure_witness :
    chatReceive (fun _ => 7) 1 [] = some ⟨some 0, none, [], 1⟩ :=
  C5_cleanClosure (fun _ => 7) 1 (by decide) (by decide)

/-- C7: for every buffer and every underlying `send` that accepts at least
    one byte per call (possibly fewer than requested), `chatSend` transmits
    all `n` bytes, in order, by looping on the unsent remainder. -/
theorem C7_chatSend_transmitsAll (sched : Nat → Int) (message : List Nat) (fuel : Nat)
    (hc : ∀ j, 1 ≤ sched j) (hf : message.length < fuel) :
    chatSend sched fuel message message.length = some (.sent message) := by
  unfold chatSend
  have h := sendLoop_complete sched hc fuel message.length message [] 0 0 (by omega) hf
  simpa using h

/-- Witness for C7: a 3-byte buffer against a stub that accepts exactly one
    byte per call. -/
theorem C7_chatSend_transmitsAll_witness :
    chatSend (fun _ => 1) 4 [10, 20, 30] 3 = some (.sent [10, 20, 30]) :=
  C7_chatSend_transmitsAll (fun _ => 1) [10, 20, 30] 4
    (fun _ => by show (1 : Int) ≤ 1; decide) (by decide)

/-- C8 (amended): for every requested count `n` and every underlying `recv`
    yielding at least 1 byte per call, provided the stream holds at least `n`
    bytes and the first `n` bytes are NUL-free, `_chatReceiveHelper` returns
    exactly the first `n` stream bytes, assembled in arrival order.  (The
    NUL-free proviso is forced by the counterexample: `strcat` drops a NUL
    and everything after it inside a chunk, so a NUL byte makes the
    accumulated message shorter than `n`.) -/
theorem C8_recvExact (sched : Nat → Int) (n fuel : Nat) (data : List Nat)
    (hc : ∀ j, 1 ≤ sched j) (hlen : n ≤ data.length)
    (hnn : ∀ b ∈ data.take n, nonNul b = true) (hf : n < fuel) :
    ∃ (st : Option Int) (i' : Nat),
      _chatReceiveHelper sched fuel data 0 (n : Int)
        = some (st, data.take n, data.drop n, i') := by
  obtain ⟨st, i', h, _⟩ := chatReceiveHelper_complete sched hc fuel n data 0 hlen hnn hf
  exact ⟨st, i', h⟩

/-- Witness for C8: `recv_exact(stream, 10)` against a stub yielding exactly
    2 bytes per call returns all 10 bytes in order. -/
theorem C8_recvExact_witness :
    ∃ (st : Option Int) (i' : Nat),
      _chatReceiveHelper (fun _ => 2) 11
          [101, 102, 103, 104, 105, 106, 107, 108, 109, 110] 0 10
        = some (st, [101, 102, 103, 104, 105, 106, 107, 108, 109, 110], [], i') :=
  C8_recvExact (fun _ => 2) 10 11 [101, 102, 103, 104, 105, 106, 107, 108, 109, 110]
    (fun _ => by show (1 : Int) ≤ 2; decide) (by decide) (by decide) (by decide)

/-- Counterexample for C8 as stated: with a NUL byte in the stream the
    helper's `strcat` silently drops data — after `bytesReceived` reaches 10
    the assembled message holds only 9 bytes, so `recv_exact` does not return
    exactly `n` bytes for arbitrary streams. -/
theorem C8_recvExact_counterexample :
    _chatReceiveHelper (fun _ => 2) 11 [65, 66, 67, 0, 69, 70, 71, 72, 73, 74] 0 10
      = some (some 2, [65, 66, 67, 69, 70, 71, 72, 73, 74], [], 5)
    ∧ ([65, 66, 67, 69, 70, 71, 72, 73, 74] : List Nat).length ≠ 10 := by decide

/-- C9: `_chatReceiveHelper` never checks for a negative `recv` return; a
    failure is added to `bytesReceived` as if it were progress, so when the
    underlying primitive keeps failing the loop never terminates — it
    exhausts every amount of fuel instead of surfacing a transport error,
    contradicting the function's own header comment ("Returns: An error
    status on failure of recv()"). -/
theorem C9_recvFailure_nontermination (fuel : Nat) :
    _chatReceiveHelper (fun _ => -1) fuel [72, 73, 74] 0 (PREFIX_OFFSET : Int) = none := by
  unfold _chatReceiveHelper
  exact helperLoop_negative (fun _ => -1) (fun _ => by show (-1 : Int) < 0; decide)
    fuel [72, 73, 74] [] 0 none 0 _
    (by decide)

/-- C2 (amended): the 3-byte header `_prependByteCountMsg` writes is the
    zero-padded decimal of `length(p) + 1` — the count includes the NUL
    terminator that `main`'s `chatSend` call transmits — not of `length(p)`;
    it is 3 digits exactly for `length(p) ≤ 998`.  The C string produced is
    `3 + length(p)` bytes with the raw payload following the header directly,
    and the frame as actually sent is one byte longer (the trailing NUL). -/
theorem C2_header (p : List Nat) (hnn : ∀ b ∈ p, nonNul b = true)
    (hlen : p.length ≤ 998) :
    _prependByteCountMsg p = sprintf03 (p.length + 1) ++ p
    ∧ (_prependByteCountMsg p).take PREFIX_OFFSET = sprintf03 (p.length + 1)
    ∧ (_prependByteCountMsg p).length = PREFIX_OFFSET + p.length
    ∧ (sentFrame p).length = PREFIX_OFFSET + p.length + 1 := by
  have hcs : cstr p = p := cstr_of_nonNul p hnn
  obtain ⟨h3, _, _⟩ := sprintf03_spec (p.length + 1) (by omega)
  have h1 : _prependByteCountMsg p = sprintf03 (p.length + 1) ++ p := by
    unfold _prependByteCountMsg
    rw [hcs]
  refine ⟨h1, ?_, ?_, ?_⟩
  · rw [h1, show PREFIX_OFFSET = (sprintf03 (p.length + 1)).length from by rw [h3]; rfl]
    exact List.take_left _ _
  · rw [h1, List.length_append, h3]
    rfl
  · unfold sentFrame
    rw [List.length_append, h1, List.length_append, h3]
    rfl

/-- Witness for C2 (amended) at the 2-byte payload "hi": the header is
    `"003"` and the frame layout is as stated. -/
theorem C2_header_witness :
    _prependByteCountMsg [104, 105] = sprintf03 (2 + 1) ++ [104, 105]
    ∧ (_prependByteCountMsg [104, 105]).take PREFIX_OFFSET = sprintf03 (2 + 1)
    ∧ (_prependByteCountMsg [104, 105]).length = PREFIX_OFFSET + 2
    ∧ (sentFrame [104, 105]).length = PREFIX_OFFSET + 2 + 1 :=
  C2_header [104, 105] (by decide) (by decide)

/-- Counterexample for C2 as stated: for the empty payload the header is
    `"001"` (the count includes the NUL terminator), not the zero-padded
    decimal `"000"` of the payload length. -/
theorem C2_header_counterexample :
    (_prependByteCountMsg []).take PREFIX_OFFSET = [48, 48, 49]
    ∧ [48, 48, 49] ≠ [48, 48, 48] := by decide

/-- C6 (amended): the code performs no capacity check and has no
    `FrameTooLarge` error.  Encoding a 999-byte payload silently produces the
    malformed 4-digit header `"1000"` (a `3 + 1 + 999`-byte result), encoding
    a 1000-byte payload likewise produces `"1001"`, and the only upstream
    guard is `_validateMsg`, which rejects any message text longer than
    `MAX_MSG = 500` bytes (forcing a re-prompt) and accepts everything up to
    that bound. -/
theorem C6_capacity :
    (_prependByteCountMsg (List.replicate 999 97)).take 4 = [49, 48, 48, 48]
    ∧ (_prependByteCountMsg (List.replicate 999 97)).length = 4 + 999
    ∧ (_prependByteCountMsg (List.replicate 1000 97)).take 4 = [49, 48, 48, 49]
    ∧ _validateMsg (List.replicate 999 97) = false
    ∧ _validateMsg (List.replicate 501 97) = false
    ∧ _validateMsg (List.replicate 500 97) = true := by decide

/-- Counterexample for C6 as stated: encoding a 999-byte payload does not
    produce the header `"999"` — the first three bytes are `"100"`, the start
    of the 4-digit rendering of `999 + 1`. -/
theorem C6_capacity_counterexample :
    (_prependByteCountMsg (List.replicate 999 97)).take PREFIX_OFFSET = [49, 48, 48]
    ∧ [49, 48, 48] ≠ [57, 57, 57] := by decide

/-- C1 (amended): round-trip holds for payloads (C strings, hence NUL-free
    byte sequences) of length at most 998: for any delivery schedule that
    yields at least one byte per `recv`, decoding the bytes that
    `_prependByteCountMsg` produces and `main`'s `chatSend` call transmits
    (header of `length + 1`, payload, trailing NUL) returns the original
    payload with a positive status and consumes the whole frame. -/
theorem C1_roundTrip (sched : Nat → Int) (p : List Nat) (fuel : Nat)
    (hc : ∀ j, 1 ≤ sched j) (hnn : ∀ b ∈ p, nonNul b = true)
    (hlen : p.length ≤ 998) (hf : p.length + 5 ≤ fuel) :
    ∃ (k i' : Nat), 1 ≤ k ∧
      chatReceive sched fuel (sentFrame p) = some ⟨some (k : Int), some p, [], i'⟩ := by
  have hcs : cstr p = p := cstr_of_nonNul p hnn
  obtain ⟨h3, hnnh, hstr⟩ := sprintf03_spec (p.length + 1) (by omega)
  have hframe : sentFrame p = sprintf03 (p.length + 1) ++ (p ++ [0]) := by
    unfold sentFrame _prependByteCountMsg
    rw [hcs, List.append_assoc]
  obtain ⟨i1, hmain⟩ :=
    chatReceive_step sched hc (sprintf03 (p.length + 1)) (p ++ [0]) fuel h3 hnnh (by omega)
  rw [← hframe, hstr] at hmain
  have hlen1 : p.length + 1 = (p ++ [0]).length := by simp
  obtain ⟨k, i2, hk1, heq2⟩ :=
    helperLoop_trailingNul sched hc fuel p (p ++ [0]) [] i1 none 0
      (by rw [hlen1, List.take_length])
      hnn
      (by simp)
      (by omega)
  rw [zero_add, List.nil_append] at heq2
  have hdropnil : (p ++ [0]).drop (p.length + 1) = [] := by
    rw [hlen1, List.drop_length]
  rw [hdropnil] at heq2
  rw [heq2] at hmain
  exact ⟨k, i2, hk1, hmain⟩

/-- Witness for C1 (amended) at the payload "hi" with full-delivery reads. -/
theorem C1_roundTrip_witness :
    ∃ (k i' : Nat), 1 ≤ k ∧
      chatReceive (fun _ => 1000) 1000 (sentFrame [104, 105])
        = some ⟨some (k : Int), some [104, 105], [], i'⟩ :=
  C1_roundTrip (fun _ => 1000) [104, 105] 1000
    (fun _ => by show (1 : Int) ≤ 1000; decide) (by decide) (by decide) (by decide)

/-- Counterexample for C1 as stated: at the claimed upper bound 999 the
    header `"%03d"` of `999 + 1` is the four digits `"1000"`, so the decoder
    reads `"100"` as the header, parses length 100, and returns a 100-byte
    message that is not the original payload. -/
theorem C1_roundTrip_counterexample :
    chatReceive (fun _ => 1000) 1001 (sentFrame (List.replicate 999 97))
      = some ⟨some 100, some (48 :: List.replicate 99 97), List.replicate 900 97 ++ [0], 2⟩
    ∧ some (48 :: List.replicate 99 97) ≠ some (List.replicate 999 97) := by decide

/-- C3 (amended): `chatReceive` parses the received header with `strtol`,
    which reads the longest leading digit run; any NUL-free 3-byte header
    whose `strtol` value is 0 — such as `"0a1"` — is treated as the numeric
    length 0: no body bytes are read, the caller's buffer receives the empty
    string, and the value returned is the body helper's never-assigned local
    `status` (modelled `none`); no error of any kind is reported. -/
theorem C3_malformedHeader (sched : Nat → Int) (hdr : List Nat) (fuel : Nat)
    (hc : ∀ j, 1 ≤ sched j) (hlen : hdr.length = 3)
    (hnn : ∀ b ∈ hdr, nonNul b = true) (hstr : strtol hdr = 0) (hf : 4 ≤ fuel) :
    ∃ i', chatReceive sched fuel hdr = some ⟨none, some [], [], i'⟩ := by
  obtain ⟨i1, hmain⟩ := chatReceive_step sched hc hdr [] fuel hlen hnn (by omega)
  rw [List.append_nil, hstr] at hmain
  obtain ⟨f', rfl⟩ : ∃ f, fuel = f + 1 := ⟨fuel - 1, by omega⟩
  have hbody : chatReceiveHelperLoop sched (f' + 1) [] i1 [] none 0 0
      = some (none, [], [], i1) := by
    simp only [chatReceiveHelperLoop]
    rw [if_neg (by omega : ¬ (0 : Int) < 0)]
  rw [hbody] at hmain
  exact ⟨i1, hmain⟩

/-- Witness for C3 (amended) at the header bytes `"0a1"`. -/
theorem C3_malformedHeader_witness :
    ∃ i', chatReceive (fun _ => 1000) 9 [48, 97, 49] = some ⟨none, some [], [], i'⟩ :=
  C3_malformedHeader (fun _ => 1000) [48, 97, 49] 9
    (fun _ => by show (1 : Int) ≤ 1000; decide) (by decide) (by decide) (by decide)
    (by decide)

/-- Counterexample for C3 as stated: the header `"0a1"` is parsed as the
    numeric length 0 — exactly what the claim says never happens — and
    `chatReceive` completes without reporting any error. -/
theorem C3_malformedHeader_counterexample :
    strtol [48, 97, 49] = 0
    ∧ chatReceive (fun _ => 1000) 9 [48, 97, 49] = some ⟨none, some [], [], 1⟩ := by
  decide

/-- C4 (amended): when the stream delivers a complete 3-byte header
    promising `n` bytes and then closes before `n` body bytes arrive,
    `chatReceive` returns status 0 — the same value it returns for a clean
    between-message closure, so the two outcomes are not distinct — with the
    truncated body bytes copied into the caller's buffer; it does not return
    a positive (`Data`-like) status for the truncated payload. -/
theorem C4_midMessageClosure (sched : Nat → Int) (hdr body : List Nat) (n fuel : Nat)
    (hc : ∀ j, 1 ≤ sched j) (hlen : hdr.length = 3)
    (hnnh : ∀ b ∈ hdr, nonNul b = true) (hstr : strtol hdr = (n : Int))
    (hnnb : ∀ b ∈ body, nonNul b = true) (hshort : body.length < n)
    (hf : body.length + 4 ≤ fuel) :
    (∃ i', chatReceive sched fuel (hdr ++ body) = some ⟨some 0, some body, [], i'⟩)
    ∧ chatReceive sched fuel [] = some ⟨some 0, none, [], 1⟩ := by
  constructor
  · obtain ⟨i1, hmain⟩ := chatReceive_step sched hc hdr body fuel hlen hnnh (by omega)
    rw [hstr] at hmain
    obtain ⟨i2, hbody⟩ :=
      helperLoop_closure sched hc fuel body [] i1 none 0 (n : Int) hnnb
        (by omega) (by omega)
    rw [List.nil_append] at hbody
    rw [hbody] at hmain
    exact ⟨i2, hmain⟩
  · exact chatReceive_nil sched fuel (by have := hc 0; omega) (by omega)

/-- Witness for C4 (amended): header `"005"` followed by only 2 body bytes. -/
theorem C4_midMessageClosure_witness :
    (∃ i', chatReceive (fun _ => 1000) 9 ([48, 48, 53] ++ [97, 98])
      = some ⟨some 0, some [97, 98], [], i'⟩)
    ∧ chatReceive (fun _ => 1000) 9 [] = some ⟨some 0, none, [], 1⟩ :=
  C4_midMessageClosure (fun _ => 1000) [48, 48, 53] [97, 98] 5 9
    (fun _ => by show (1 : Int) ≤ 1000; decide) (by decide) (by decide) (by decide)
    (by decide) (by decide) (by decide)

/-- Counterexample for C4 as stated: the mid-message closure after header
    `"005"` and the clean first-read closure produce the very same returned
    status, so the code does not report the two outcomes distinctly. -/
theorem C4_midMessageClosure_counterexample :
    (chatReceive (fun _ => 1000) 9 [48, 48, 53, 97, 98]).map ReceiveResult.status
      = (chatReceive (fun _ => 1000) 9 []).map ReceiveResult.status := by decide

/-- C10: for every advertised body length `m` with `MAX_BYTES < m ≤ 999`
    and a stream that delivers the promised bytes, `chatReceive` accumulates
    all `m` body bytes — in C, `strcat` writes them (plus a terminator) into
    the fixed `body[MAX_BYTES]` buffer, i.e. past its end — so the decoder is
    memory-safe only under the unstated precondition that the peer's
    advertised length is at most `MAX_BYTES = 516`.  (The helper's first
    `recv` call likewise requests all `m` bytes into its `MAX_BYTES` scratch
    buffer.) -/
theorem C10_bufferOverflow (sched : Nat → Int) (p : List Nat) (fuel : Nat)
    (hc : ∀ j, 1 ≤ sched j) (hnn : ∀ b ∈ p, nonNul b = true)
    (hlo : MAX_BYTES < p.length) (hhi : p.length ≤ 999)
    (hf : p.length + 4 ≤ fuel) :
    ∃ (k i' : Nat), 1 ≤ k ∧
      chatReceive sched fuel (sprintf03 p.length ++ p)
        = some ⟨some (k : Int), some p, [], i'⟩
      ∧ MAX_BYTES < p.length := by
  obtain ⟨h3, hnnh, hstr⟩ := sprintf03_spec p.length (by omega)
  obtain ⟨i1, hmain⟩ :=
    chatReceive_step sched hc (sprintf03 p.length) p fuel h3 hnnh (by omega)
  rw [hstr] at hmain
  have hcompl :=
    helperLoop_complete sched hc fuel p.length p [] i1 none 0 (le_refl _)
      (by rw [List.take_length]; exact hnn)
      (by omega)
  rw [zero_add] at hcompl
  obtain ⟨st2, i2, heq2, _, hpos2⟩ := hcompl
  obtain ⟨k, hk1, hstk⟩ := hpos2 (by have := MAX_BYTES; omega)
  rw [List.nil_append, List.take_length, List.drop_length, hstk] at heq2
  rw [heq2] at hmain
  exact ⟨k, i2, hk1, hmain, hlo⟩

/-- Witness for C10: an advertised length of 517 = MAX_BYTES + 1. -/
theorem C10_bufferOverflow_witness :
    ∃ (k i' : Nat), 1 ≤ k ∧
      chatReceive (fun _ => 1000) 1000
          (sprintf03 (List.replicate 517 65).length ++ List.replicate 517 65)
        = some ⟨some (k : Int), some (List.replicate 517 65), [], i'⟩
      ∧ MAX_BYTES < (List.replicate 517 65).length :=
  C10_bufferOverflow (fun _ => 1000) (List.replicate 517 65) 1000
    (fun _ => by show (1 : Int) ≤ 1000; decide) (by decide) (by decide) (by decide)
    (by decide)

end ChatClient
